import Mathlib

/-!
# Prefix search over a character trie (`swiftbots/c_ext/search_ext.c`)

A shallow embedding of the C extension module `search_ext`: the module
globals (`FINAL_INDICATOR_OBJ`, `ASCII_CACHE`), their initialisation in
`PyInit_search_ext`, and the function `search_trie`.

Python objects are modelled by value.  A `dict` is an association list read
by first match, a `str` is the list of its code points.  Reference counts
(`Py_INCREF`, `Py_DECREF`) are not modelled.  Every call of the two dictionary
primitives made by the loop is recorded in a trace, so that statements about
what the search does (and does not) consult can be expressed.
-/

namespace SearchExt

/-! ## Python values -/

/-- A Unicode code point, `0 .. 0x10FFFF` (what `PyUnicode_READ` yields). -/
abbrev CodePoint := Fin 1114112

/-- A Python `str`: its sequence of code points. -/
abbrev PyStr := List CodePoint

/-- A dictionary key: a `str`, or some other hashable object (which never
compares equal to a `str`). -/
inductive PyKey where
  | str (s : PyStr)
  | other (id : Nat)
  deriving DecidableEq, Repr

/-- A Python object: a `dict` (insertion-ordered entries), or any object that
is not a `dict` (an `int`, a `str`, `None`, ...). -/
inductive PyObj where
  | dict (items : List (PyKey × PyObj))
  | other (id : Nat)
  deriving Repr

/-- Exceptions raised by the module. -/
inductive PyErr where
  | TypeError (msg : String)
  deriving DecidableEq, Repr

/-- What a call of `search_trie` hands back to the interpreter. -/
inductive Result where
  /-- Exit `return NULL` with an exception set. -/
  | error (e : PyErr)
  /-- Exit `Py_RETURN_NONE`. -/
  | none
  /-- Exit `return trie`. -/
  | node (trie : PyObj)
  /-- The call left the behaviour defined by the C API (a `NULL` key, or a
  dictionary primitive without a type check applied to a non-`dict`). -/
  | undefined
  deriving Repr

/-- The dictionary primitives called by the loop, with their arguments. -/
inductive Event where
  | getItem (op : PyObj) (key : PyStr)
  | contains (op : PyObj) (key : PyStr)
  deriving Repr

/-- Result of a call together with the dictionary primitives it performed,
in order. -/
structure Outcome where
  result : Result
  trace : List Event
  deriving Repr

/-! ## CPython API used by the module -/

/-- Code points of a string literal. -/
def codePoints (s : String) : PyStr :=
  s.toList.map (fun c => ⟨c.toNat, by
    rcases c.valid with h | h
    · have h1 : c.toNat < 55296 := h
      omega
    · have h2 : c.toNat < 1114112 := h.2
      omega⟩)

/-- Model of `PyUnicode_FromString`: the `str` of a C string literal. -/
def PyUnicode_FromString (u : String) : Option PyStr :=
  some (codePoints u)

/-- Model of `PyUnicode_FromOrdinal`: the one-code-point `str` of `ordinal`, or `NULL`
(here `none`) when the ordinal is not in `range(0x110000)`. -/
def PyUnicode_FromOrdinal (ordinal : Nat) : Option PyStr :=
  if h : ordinal < 1114112 then some [⟨ordinal, h⟩] else none

/-- Model of `PyDict_Check`: is the object a `dict`. -/
def PyDict_Check : PyObj → Bool
  | .dict _ => true
  | .other _ => false

/-- Value of the first entry stored under the `str` key `key`. -/
def dictLookup (key : PyStr) : List (PyKey × PyObj) → Option PyObj
  | [] => none
  | (k, v) :: rest => if k = PyKey.str key then some v else dictLookup key rest

/-- Model of `PyDict_GetItem`: the value stored under `key`, `NULL` (here `none`) when
the key is missing or `op` is not a `dict`. -/
def PyDict_GetItem (op : PyObj) (key : PyStr) : Option PyObj :=
  match op with
  | .dict items => dictLookup key items
  | .other _ => none

/-- Model of `PyDict_Contains`: `1` when `key` is present, `0` when it is not.  The
function does not check the type of `op`; on a non-`dict` its behaviour is not
defined (here `none`). -/
def PyDict_Contains (op : PyObj) (key : PyStr) : Option Int :=
  match op with
  | .dict items => some (if (dictLookup key items).isSome then 1 else 0)
  | .other _ => none

/-! ## Module globals and initialisation -/

/-- Line 3: `const char *FINAL_INDICATOR = "**";` -/
def FINAL_INDICATOR : String := "**"

/-- The two object globals of the module; `none` is a `NULL` pointer. -/
structure Globals where
  FINAL_INDICATOR_OBJ : Option PyStr
  ASCII_CACHE : List (Option PyStr)

/-- Static storage before `PyInit_search_ext` runs: all pointers `NULL`,
`ASCII_CACHE` has its 256 slots. -/
def Globals.static : Globals :=
  { FINAL_INDICATOR_OBJ := none, ASCII_CACHE := List.replicate 256 none }

/-- Module initialisation `PyInit_search_ext`: builds the sentinel key, then fills slot `i` of the
cache for `i = 0 .. 255`. -/
def PyInit_search_ext (g : Globals) : Globals :=
  (List.range 256).foldl
    (fun g i => { g with ASCII_CACHE := g.ASCII_CACHE.set i (PyUnicode_FromOrdinal i) })
    { g with FINAL_INDICATOR_OBJ := PyUnicode_FromString FINAL_INDICATOR }

/-- Globals of the imported module. -/
def loaded : Globals := PyInit_search_ext Globals.static

/-! ## `search_trie` -/

/-- Lines 24-30: the key object for code point `ch`; the cache slot for
`ch < 256` (a read outside the array gives `none`), a fresh `str` otherwise. -/
def ch_obj (g : Globals) (ch : CodePoint) : Option PyStr :=
  if ch.val < 256 then g.ASCII_CACHE.getD ch.val none
  else PyUnicode_FromOrdinal ch.val

/-- Lines 22-43: the `for` loop over the code points of the word that are
still to be read, from the node `trie`.  A `NULL` key object or a `NULL`
sentinel object reaching a dictionary primitive, and `PyDict_Contains` on a
non-`dict`, end the run as `undefined`. -/
def search_loop (g : Globals) : PyObj → List CodePoint → Outcome
  | _, [] => ⟨.none, []⟩
  | trie, ch :: rest =>
    match ch_obj g ch with
    | none => ⟨.undefined, []⟩
    | some key =>
      match PyDict_GetItem trie key with
      | none => ⟨.none, [.getItem trie key]⟩
      | some child =>
        match g.FINAL_INDICATOR_OBJ with
        | none => ⟨.undefined, [.getItem trie key]⟩
        | some fin =>
          match PyDict_Contains child fin with
          | none => ⟨.undefined, [.getItem trie key, .contains child fin]⟩
          | some r =>
            if r = 1 then ⟨.node child, [.getItem trie key, .contains child fin]⟩
            else
              let o := search_loop g child rest
              ⟨o.result, .getItem trie key :: .contains child fin :: o.trace⟩

/-- Function `search_trie(trie, word)`, the arguments already unpacked by
`PyArg_ParseTuple` and `word` a `str`. -/
def search_trie (g : Globals) (trie : PyObj) (word : PyStr) : Outcome :=
  if PyDict_Check trie then search_loop g trie word
  else ⟨.error (.TypeError "First argument must be a dictionary"), []⟩

/-! ## Vocabulary of the specification -/

/-- The sentinel key `"**"`. -/
def sentinel : PyStr := codePoints FINAL_INDICATOR

/-- Node reached from `n` by following the characters of `p`, when every edge
exists. -/
def walk : PyObj → List CodePoint → Option PyObj
  | n, [] => some n
  | n, c :: p =>
    match PyDict_GetItem n [c] with
    | none => none
    | some m => walk m p

/-- The node is a mapping that contains the sentinel key. -/
def holdsSentinel : PyObj → Bool
  | .dict items => (dictLookup sentinel items).isSome
  | .other _ => false

/-- The path `p` exists from `n` and ends at a node holding the sentinel. -/
def terminalAt (n : PyObj) (p : List CodePoint) : Bool :=
  match walk n p with
  | some m => holdsSentinel m
  | none => false

mutual
/-- Trie of the data model: a mapping in which every value stored under a
single-code-point key is again such a mapping. -/
def IsTrie : PyObj → Bool
  | .dict items => IsTrieItems items
  | .other _ => false
/-- Entries of a trie node, see `IsTrie`. -/
def IsTrieItems : List (PyKey × PyObj) → Bool
  | [] => true
  | (k, v) :: rest =>
    (match k with
     | .str [_] => IsTrie v
     | _ => true) && IsTrieItems rest
end

/-- The search has to stop after the characters of `p`: the path of `p` from
`n` is broken by a missing edge, or it ends at a node holding the sentinel. -/
def stopsAt (n : PyObj) (p : List CodePoint) : Bool :=
  match walk n p with
  | some m => holdsSentinel m
  | none => true

/-! ## Observations on a run -/

/-- The object a dictionary primitive was applied to. -/
def Event.op : Event → PyObj
  | .getItem op _ => op
  | .contains op _ => op

/-- The event is a child lookup (`PyDict_GetItem`). -/
def Event.isGetItem : Event → Bool
  | .getItem _ _ => true
  | .contains _ _ => false

/-- Number of child lookups of a run.  The loop body starts with the one
lookup of the iteration, so this is the number of loop iterations, that is,
of characters of the word that were read. -/
def Outcome.lookups (o : Outcome) : Nat :=
  o.trace.countP Event.isGetItem

/-! ## The search without the cache -/

/-- Reference loop for the cache refinement: as `search_loop`, but the key of
every code point is built fresh by `PyUnicode_FromOrdinal`, as the
specification describes the key of a code point; no cache is read. -/
def search_loop_fresh (g : Globals) : PyObj → List CodePoint → Outcome
  | _, [] => ⟨.none, []⟩
  | trie, ch :: rest =>
    match PyUnicode_FromOrdinal ch.val with
    | none => ⟨.undefined, []⟩
    | some key =>
      match PyDict_GetItem trie key with
      | none => ⟨.none, [.getItem trie key]⟩
      | some child =>
        match g.FINAL_INDICATOR_OBJ with
        | none => ⟨.undefined, [.getItem trie key]⟩
        | some fin =>
          match PyDict_Contains child fin with
          | none => ⟨.undefined, [.getItem trie key, .contains child fin]⟩
          | some r =>
            if r = 1 then ⟨.node child, [.getItem trie key, .contains child fin]⟩
            else
              let o := search_loop_fresh g child rest
              ⟨o.result, .getItem trie key :: .contains child fin :: o.trace⟩

/-- Reference search for the cache refinement: `search_trie` over
`search_loop_fresh`. -/
def search_trie_fresh (g : Globals) (trie : PyObj) (word : PyStr) : Outcome :=
  if PyDict_Check trie then search_loop_fresh g trie word
  else ⟨.error (.TypeError "First argument must be a dictionary"), []⟩

/-- Every value stored under a single-code-point key anywhere in the object
is itself a mapping (nothing is asked of an object that is not a mapping). -/
def childrenAreMappings : PyObj → Bool
  | .dict items => IsTrieItems items
  | .other _ => true

/-- The node of a complete entry with no continuation: `{"**": tag}`. -/
def leaf (tag : Nat) : PyObj := .dict [(.str sentinel, .other tag)]

/-- The trie `{c:{a:{t:{**}}}}` holding the entry "cat". -/
def trieCat : PyObj :=
  .dict [(.str (codePoints "c"), .dict [(.str (codePoints "a"),
    .dict [(.str (codePoints "t"), leaf 0)])])]

/-- The node reached by "cat" in `trieCatalog`: a complete entry that has a
continuation. -/
def nodeCatalogCat : PyObj :=
  .dict [(.str sentinel, .other 0), (.str (codePoints "a"), .dict [(.str (codePoints "l"),
    .dict [(.str (codePoints "o"), .dict [(.str (codePoints "g"), leaf 1)])])])]

/-- The trie `{c:{a:{t:{**, a:{l:{o:{g:{**}}}}}}}}` holding the entries "cat"
and "catalog". -/
def trieCatalog : PyObj :=
  .dict [(.str (codePoints "c"), .dict [(.str (codePoints "a"),
    .dict [(.str (codePoints "t"), nodeCatalogCat)])])]

/-- The trie `{C:{a:{t:{**}}}}` holding only the entry "Cat". -/
def trieCapCat : PyObj :=
  .dict [(.str (codePoints "C"), .dict [(.str (codePoints "a"),
    .dict [(.str (codePoints "t"), leaf 0)])])]

/-- The trie holding the two entries "Cat" (its node tagged 0) and "cat" (its
node tagged 1). -/
def trieBothCats : PyObj :=
  .dict [(.str (codePoints "C"), .dict [(.str (codePoints "a"),
      .dict [(.str (codePoints "t"), leaf 0)])]),
    (.str (codePoints "c"), .dict [(.str (codePoints "a"),
      .dict [(.str (codePoints "t"), leaf 1)])])]

/-- A mapping whose value under "a" is not a mapping: `{"a": 5}`. -/
def dictWithIntChild : PyObj := .dict [(.str (codePoints "a"), .other 5)]

/-! ## The initialised globals -/

/-- Filling the first `n` slots leaves the sentinel pointer alone, keeps the
number of slots, and stores the one-code-point string in each slot visited. -/
theorem fill_spec (n : Nat) (g : Globals) :
    let g1 := (List.range n).foldl
      (fun g i => { g with ASCII_CACHE := g.ASCII_CACHE.set i (PyUnicode_FromOrdinal i) }) g
    g1.FINAL_INDICATOR_OBJ = g.FINAL_INDICATOR_OBJ ∧
    g1.ASCII_CACHE.length = g.ASCII_CACHE.length ∧
    ∀ i, g1.ASCII_CACHE[i]? =
      if i < n ∧ i < g.ASCII_CACHE.length then some (PyUnicode_FromOrdinal i)
      else g.ASCII_CACHE[i]? := by
  induction n with
  | zero => simp
  | succ n ih =>
    obtain ⟨h1, h2, h3⟩ := ih
    simp only [List.range_succ, List.foldl_append, List.foldl_cons, List.foldl_nil]
    refine ⟨h1, by simpa using h2, fun i => ?_⟩
    simp only [List.getElem?_set, h2, h3]
    by_cases hi : n = i
    · subst hi
      by_cases hl : n < g.ASCII_CACHE.length <;> simp [hl]
      omega
    · have : i < n + 1 ↔ i < n := by omega
      simp [hi, this]

/-- After initialisation the sentinel global is the string "**". -/
theorem loaded_final : loaded.FINAL_INDICATOR_OBJ = some sentinel := by
  have h := (fill_spec 256 { Globals.static with
    FINAL_INDICATOR_OBJ := PyUnicode_FromString FINAL_INDICATOR }).1
  unfold loaded PyInit_search_ext
  rw [h]
  rfl

/-- After initialisation every slot below 256 holds its one-code-point string. -/
theorem loaded_cache_slot (i : Nat) (hi : i < 256) :
    loaded.ASCII_CACHE[i]? = some (PyUnicode_FromOrdinal i) := by
  have h := (fill_spec 256 { Globals.static with
    FINAL_INDICATOR_OBJ := PyUnicode_FromString FINAL_INDICATOR }).2.2 i
  have hl : Globals.static.ASCII_CACHE.length = 256 := List.length_replicate 256 none
  unfold loaded PyInit_search_ext
  rw [h, if_pos ⟨hi, by rw [hl]; exact hi⟩]

/-- The key object built for a code point is its one-code-point string. -/
theorem ch_obj_loaded (c : CodePoint) : ch_obj loaded c = some [c] := by
  unfold ch_obj
  split
  · next h =>
    rw [List.getD_eq_getElem?_getD, loaded_cache_slot _ h]
    simp [PyUnicode_FromOrdinal, c.isLt]
  · simp [PyUnicode_FromOrdinal, c.isLt]

/-- The sentinel test in terms of `holdsSentinel`. -/
theorem contains_eq (n : PyObj) :
    PyDict_Contains n sentinel =
      if PyDict_Check n then some (if holdsSentinel n then 1 else 0) else none := by
  cases n <;> simp [PyDict_Contains, PyDict_Check, holdsSentinel]

/-! ## One iteration of the loop -/

theorem search_loop_nil (T : PyObj) : search_loop loaded T [] = ⟨.none, []⟩ := by
  simp [search_loop]

theorem search_loop_cons (T : PyObj) (c : CodePoint) (w : List CodePoint) :
    search_loop loaded T (c :: w) =
      match PyDict_GetItem T [c] with
      | none => ⟨.none, [.getItem T [c]]⟩
      | some child =>
        if PyDict_Check child then
          if holdsSentinel child then
            ⟨.node child, [.getItem T [c], .contains child sentinel]⟩
          else
            ⟨(search_loop loaded child w).result,
              .getItem T [c] :: .contains child sentinel :: (search_loop loaded child w).trace⟩
        else ⟨.undefined, [.getItem T [c], .contains child sentinel]⟩ := by
  rw [search_loop]
  simp only [ch_obj_loaded, loaded_final, contains_eq]
  cases h : PyDict_GetItem T [c] with
  | none => rfl
  | some child =>
    by_cases hd : PyDict_Check child = true
    · by_cases hs : holdsSentinel child = true <;> simp [hd, hs]
    · simp [hd]

/-! ## Result of the loop, step by step -/

theorem search_trie_of_dict (g : Globals) (T : PyObj) (w : PyStr)
    (h : PyDict_Check T = true) : search_trie g T w = search_loop g T w := by
  simp [search_trie, h]

theorem search_trie_of_not_dict (g : Globals) (T : PyObj) (w : PyStr)
    (h : PyDict_Check T = false) :
    search_trie g T w =
      ⟨.error (.TypeError "First argument must be a dictionary"), []⟩ := by
  simp [search_trie, h]

theorem loop_result_cons (T : PyObj) (c : CodePoint) (w : List CodePoint) :
    (search_loop loaded T (c :: w)).result =
      match PyDict_GetItem T [c] with
      | none => .none
      | some child =>
        if PyDict_Check child then
          if holdsSentinel child then .node child
          else (search_loop loaded child w).result
        else .undefined := by
  rw [search_loop_cons]
  cases PyDict_GetItem T [c] with
  | none => rfl
  | some child =>
    by_cases hd : PyDict_Check child = true
    · by_cases hs : holdsSentinel child = true <;> simp [hd, hs]
    · simp [hd]

theorem holdsSentinel_check {n : PyObj} (h : holdsSentinel n = true) :
    PyDict_Check n = true := by
  cases n with
  | dict items => rfl
  | other id => simp [holdsSentinel] at h

theorem getItem_check {n m : PyObj} {k : PyStr} (h : PyDict_GetItem n k = some m) :
    PyDict_Check n = true := by
  cases n with
  | dict items => rfl
  | other id => simp [PyDict_GetItem] at h

theorem walk_check {n m : PyObj} {p : List CodePoint} (hp : p ≠ [])
    (h : walk n p = some m) : PyDict_Check n = true := by
  cases p with
  | nil => exact absurd rfl hp
  | cons c p =>
    rw [walk] at h
    cases hg : PyDict_GetItem n [c] with
    | none => simp [hg] at h
    | some child => exact getItem_check hg

theorem walk_cons_some {n m : PyObj} {c : CodePoint} {p : List CodePoint}
    (h : walk n (c :: p) = some m) :
    ∃ child, PyDict_GetItem n [c] = some child ∧ walk child p = some m := by
  rw [walk] at h
  cases hg : PyDict_GetItem n [c] with
  | none => simp [hg] at h
  | some child => exact ⟨child, rfl, by simpa [hg] using h⟩

theorem terminalAt_cons {n child : PyObj} {c : CodePoint} (p : List CodePoint)
    (h : PyDict_GetItem n [c] = some child) :
    terminalAt n (c :: p) = terminalAt child p := by
  simp [terminalAt, walk, h]

theorem terminalAt_single {n child : PyObj} {c : CodePoint}
    (h : PyDict_GetItem n [c] = some child) :
    terminalAt n [c] = holdsSentinel child := by
  simp [terminalAt, walk, h]

/-- Shortest match, on the loop: the first sentinel-holding node on the path
of `p` is the node the loop returns, whatever follows `p`. -/
theorem loop_shortest (p : List CodePoint) :
    ∀ (T n : PyObj) (s : List CodePoint), p ≠ [] → walk T p = some n →
      holdsSentinel n = true →
      (∀ k, 0 < k → k < p.length → terminalAt T (p.take k) = false) →
      (search_loop loaded T (p ++ s)).result = .node n := by
  induction p with
  | nil => intro T n s hp; exact absurd rfl hp
  | cons c p ih =>
    intro T n s _ hw hs hmin
    obtain ⟨child, hg, hw1⟩ := walk_cons_some hw
    rw [List.cons_append, loop_result_cons, hg]
    cases p with
    | nil =>
      simp only [walk, Option.some.injEq] at hw1
      subst hw1
      simp [hs, holdsSentinel_check hs]
    | cons d p =>
      have hc : PyDict_Check child = true := walk_check (by simp) hw1
      have h1 : holdsSentinel child = false := by
        have := hmin 1 (by omega) (by simp)
        simpa [terminalAt_single hg] using this
      simp only [hc, h1, if_true, Bool.false_eq_true, if_false]
      refine ih child n s (by simp) hw1 hs (fun k hk0 hk => ?_)
      have := hmin (k + 1) (by omega) (by simp at hk ⊢; omega)
      simpa [List.take_succ_cons, terminalAt_cons _ hg] using this

/-- A node returned by the loop is reached by a non-empty prefix of the word
and holds the sentinel. -/
theorem loop_node_sound (w : List CodePoint) :
    ∀ (T n : PyObj), (search_loop loaded T w).result = .node n →
      ∃ p, p ≠ [] ∧ p <+: w ∧ walk T p = some n ∧ holdsSentinel n = true := by
  induction w with
  | nil => intro T n h; simp [search_loop_nil] at h
  | cons c w ih =>
    intro T n h
    rw [loop_result_cons] at h
    cases hg : PyDict_GetItem T [c] with
    | none => simp [hg] at h
    | some child =>
      by_cases hd : PyDict_Check child = true
      · by_cases hs : holdsSentinel child = true
        · simp only [hg, hd, hs, if_true, Result.node.injEq] at h
          subst h
          exact ⟨[c], by simp, by simp, by simp [walk, hg], hs⟩
        · simp only [hg, hd, hs, if_true, Bool.false_eq_true, if_false] at h
          obtain ⟨p, _, hpre, hw, hsn⟩ := ih child n h
          exact ⟨c :: p, by simp, by simpa using hpre, by simp [walk, hg, hw], hsn⟩
      · simp [hg, hd] at h

theorem isTrie_check {T : PyObj} (h : IsTrie T = true) : PyDict_Check T = true := by
  cases T with
  | dict items => rfl
  | other id => simp [IsTrie] at h

theorem isTrieItems_lookup (c : CodePoint) (items : List (PyKey × PyObj)) :
    ∀ m, IsTrieItems items = true → dictLookup [c] items = some m → IsTrie m = true := by
  induction items with
  | nil => intro m _ h; simp [dictLookup] at h
  | cons e rest ih =>
    intro m ht hl
    obtain ⟨k, v⟩ := e
    rw [dictLookup] at hl
    by_cases hk : k = PyKey.str [c]
    · subst hk
      simp only [if_true, Option.some.injEq] at hl
      subst hl
      simp only [IsTrieItems, Bool.and_eq_true] at ht
      exact ht.1
    · rw [if_neg hk] at hl
      have hr : IsTrieItems rest = true := by
        cases k with
        | other id => simpa [IsTrieItems] using ht
        | str s =>
          unfold IsTrieItems at ht
          exact (Bool.and_eq_true _ _ ▸ ht).2
      exact ih m hr hl

/-- The child of a trie node under a single-code-point key is a trie. -/
theorem isTrie_child {T m : PyObj} {c : CodePoint} (h : IsTrie T = true)
    (hg : PyDict_GetItem T [c] = some m) : IsTrie m = true := by
  cases T with
  | dict items =>
    rw [IsTrie] at h
    exact isTrieItems_lookup c items m h hg
  | other id => simp [IsTrie] at h

theorem isTrie_walk (p : List CodePoint) :
    ∀ (T m : PyObj), IsTrie T = true → walk T p = some m → IsTrie m = true := by
  induction p with
  | nil => intro T m h hw; simp only [walk, Option.some.injEq] at hw; exact hw ▸ h
  | cons c p ih =>
    intro T m h hw
    obtain ⟨child, hg, hw1⟩ := walk_cons_some hw
    exact ih child m (isTrie_child h hg) hw1

/-- On a trie the loop ends with absence or with a node. -/
theorem loop_trie_total (w : List CodePoint) :
    ∀ (T : PyObj), IsTrie T = true →
      (search_loop loaded T w).result = .none ∨
        ∃ n, (search_loop loaded T w).result = .node n := by
  induction w with
  | nil => intro T _; simp [search_loop_nil]
  | cons c w ih =>
    intro T ht
    rw [loop_result_cons]
    cases hg : PyDict_GetItem T [c] with
    | none => simp
    | some child =>
      have hc := isTrie_child ht hg
      by_cases hs : holdsSentinel child = true
      · simp [isTrie_check hc, hs]
      · simpa [isTrie_check hc, hs] using ih child hc

/-! ## C1 – C3, C5 -/

/-- C1 (shortest match).  If `p` is the shortest non-empty prefix of `w` whose
path from the root of `T` exists and ends at a node holding the sentinel, and
`n` is the node reached by `p`, then `search_trie(T, w)` returns `n`; nothing
is assumed about longer prefixes of `w`. -/
theorem search_trie_shortest_match (T : PyObj) (w p : List CodePoint) (n : PyObj)
    (hne : p ≠ []) (hpre : p <+: w)
    (hwalk : walk T p = some n) (hsent : holdsSentinel n = true)
    (hmin : ∀ q : List CodePoint, q ≠ [] → q <+: w → q.length < p.length →
      terminalAt T q = false) :
    (search_trie loaded T w).result = .node n := by
  obtain ⟨s, rfl⟩ := hpre
  rw [search_trie_of_dict _ _ _ (walk_check hne hwalk)]
  refine loop_shortest p T n s hne hwalk hsent (fun k hk0 hk => ?_)
  refine hmin (p.take k) ?_ ?_ ?_
  · cases p with
    | nil => exact absurd rfl hne
    | cons c p => cases k with
      | zero => omega
      | succ k => simp
  · exact (List.take_prefix k p).trans (List.prefix_append p s)
  · rw [List.length_take]; omega

/-- C1, example 5 of the specification: with both "cat" and "catalog" as
entries, the search for "catalog" returns the node at c, a, t, although
"catalog" itself ends at a sentinel-holding node further down. -/
theorem search_trie_shortest_match_witness :
    walk trieCatalog (codePoints "cat") = some nodeCatalogCat ∧
    terminalAt trieCatalog (codePoints "catalog") = true ∧
    (search_trie loaded trieCatalog (codePoints "catalog")).result = .node nodeCatalogCat :=
  ⟨by rfl, by decide,
    search_trie_shortest_match trieCatalog (codePoints "catalog") (codePoints "cat")
      nodeCatalogCat (by decide) ⟨codePoints "alog", by decide⟩ (by rfl) (by decide)
      (by
        intro q hq hpre hlen
        have hq2 : q = (codePoints "catalog").take q.length := List.prefix_iff_eq_take.mp hpre
        have h3 : (codePoints "cat").length = 3 := by decide
        rw [h3] at hlen
        have h0 : 0 < q.length := List.length_pos.mpr hq
        rw [hq2]
        generalize q.length = k at hlen h0
        interval_cases k <;> decide)⟩

/-- C2 (soundness).  For every trie `T` and word `w`, `search_trie(T, w)`
returns absence, or it returns a node that is reached from the root of `T` by
the characters of a non-empty prefix of `w` and that holds the sentinel key. -/
theorem search_trie_sound (T : PyObj) (w : List CodePoint) (hT : IsTrie T = true) :
    (search_trie loaded T w).result = .none ∨
      ∃ p n, p ≠ [] ∧ p <+: w ∧ walk T p = some n ∧ holdsSentinel n = true ∧
        (search_trie loaded T w).result = .node n := by
  rw [search_trie_of_dict _ _ _ (isTrie_check hT)]
  rcases loop_trie_total w T hT with h | ⟨n, h⟩
  · exact Or.inl h
  · obtain ⟨p, hp, hpre, hw, hs⟩ := loop_node_sound w T n h
    exact Or.inr ⟨p, n, hp, hpre, hw, hs, h⟩

/-- C2 at the trie holding "cat" and "catalog" and the word "catalog". -/
theorem search_trie_sound_witness :
    IsTrie trieCatalog = true ∧
    ((search_trie loaded trieCatalog (codePoints "catalog")).result = .none ∨
      ∃ p n, p ≠ [] ∧ p <+: codePoints "catalog" ∧ walk trieCatalog p = some n ∧
        holdsSentinel n = true ∧
        (search_trie loaded trieCatalog (codePoints "catalog")).result = .node n) :=
  ⟨by decide, search_trie_sound trieCatalog (codePoints "catalog") (by decide)⟩

/-- C3.  For every first argument that is not a mapping and every word, the
call fails with the `TypeError` "First argument must be a dictionary" and its
trace is empty: no key lookup and no sentinel test is performed. -/
theorem search_trie_not_dict (g : Globals) (T : PyObj) (w : PyStr)
    (hT : PyDict_Check T = false) :
    search_trie g T w =
      ⟨.error (.TypeError "First argument must be a dictionary"), []⟩ :=
  search_trie_of_not_dict g T w hT

/-- C3 at a non-mapping first argument, for the empty word and for "cat". -/
theorem search_trie_not_dict_witness :
    PyDict_Check (.other 7) = false ∧
    search_trie loaded (.other 7) [] =
      ⟨.error (.TypeError "First argument must be a dictionary"), []⟩ ∧
    search_trie loaded (.other 7) (codePoints "cat") =
      ⟨.error (.TypeError "First argument must be a dictionary"), []⟩ :=
  ⟨rfl, search_trie_not_dict loaded (.other 7) [] rfl,
    search_trie_not_dict loaded (.other 7) (codePoints "cat") rfl⟩

/-- C5.  For every mapping `T`, also one whose root holds the sentinel key,
`search_trie(T, "")` returns absence, without any lookup. -/
theorem search_trie_empty_word (T : PyObj) (hT : PyDict_Check T = true) :
    search_trie loaded T [] = ⟨.none, []⟩ := by
  rw [search_trie_of_dict _ _ _ hT, search_loop_nil]

/-- C5 at a root that holds the sentinel key itself. -/
theorem search_trie_empty_word_witness :
    holdsSentinel (leaf 0) = true ∧ search_trie loaded (leaf 0) [] = ⟨.none, []⟩ :=
  ⟨by decide, search_trie_empty_word (leaf 0) rfl⟩

/-! ## C6 – C8 -/

/-- Path break, on the loop: once the edge for `c` is missing the loop ends
with absence, and its outcome does not depend on what follows `c`. -/
theorem loop_path_break (c : CodePoint) (u : List CodePoint) :
    ∀ (T N : PyObj), IsTrie T = true → walk T u = some N →
      (∀ k, 0 < k → k ≤ u.length → terminalAt T (u.take k) = false) →
      PyDict_GetItem N [c] = none →
      ∀ s, (search_loop loaded T (u ++ c :: s)).result = .none ∧
        search_loop loaded T (u ++ c :: s) = search_loop loaded T (u ++ [c]) := by
  induction u with
  | nil =>
    intro T N _ hw _ hc s
    simp only [walk, Option.some.injEq] at hw
    subst hw
    simp [search_loop_cons, hc]
  | cons d u ih =>
    intro T N hT hw hns hc s
    obtain ⟨child, hg, hw1⟩ := walk_cons_some hw
    have hct := isTrie_child hT hg
    have h1 : holdsSentinel child = false := by
      have := hns 1 (by omega) (by simp)
      simpa [terminalAt_single hg] using this
    have hrec := ih child N hct hw1 (fun k hk0 hk => by
      have := hns (k + 1) (by omega) (by simpa using hk)
      simpa [List.take_succ_cons, terminalAt_cons _ hg] using this) hc s
    simp only [List.cons_append, search_loop_cons, hg, isTrie_check hct, h1, if_true,
      Bool.false_eq_true, if_false]
    exact ⟨hrec.1, by rw [hrec.2]⟩

/-- C6 (path break).  Let `u` be a path in the trie `T` from the root to `N`,
with no node reached after 1 .. len(u) characters of `u` holding the sentinel,
and let `N` have no child under the key of `c`.  Then `search_trie(T, u ++ [c]
++ s)` returns absence, and result and trace are the same for every two tails
`s`, `s2`: nothing after the missing edge is consulted. -/
theorem search_trie_path_break (T N : PyObj) (u : List CodePoint) (c : CodePoint)
    (s s2 : List CodePoint) (hT : IsTrie T = true) (hu : walk T u = some N)
    (hns : ∀ k, 0 < k → k ≤ u.length → terminalAt T (u.take k) = false)
    (hc : PyDict_GetItem N [c] = none) :
    (search_trie loaded T (u ++ c :: s)).result = .none ∧
      search_trie loaded T (u ++ c :: s) = search_trie loaded T (u ++ c :: s2) := by
  simp only [search_trie_of_dict _ _ _ (isTrie_check hT)]
  have h1 := loop_path_break c u T N hT hu hns hc s
  have h2 := loop_path_break c u T N hT hu hns hc s2
  exact ⟨h1.1, h1.2.trans h2.2.symm⟩

/-- C6, example 3 of the specification: the trie holding "cat" has no edge
for the first character of "dog"; the search returns absence after the single
lookup of "d" in the root, as it does for the word "d" alone.  Likewise for
"cob", where the edge missing is the second one. -/
theorem search_trie_path_break_witness :
    ((search_trie loaded trieCat (codePoints "dog")).result = .none ∧
      search_trie loaded trieCat (codePoints "dog") =
        search_trie loaded trieCat (codePoints "d")) ∧
    ((search_trie loaded trieCat (codePoints "cob")).result = .none ∧
      search_trie loaded trieCat (codePoints "cob") =
        search_trie loaded trieCat (codePoints "co")) :=
  ⟨search_trie_path_break trieCat trieCat [] 100 (codePoints "og") [] (by decide) rfl
      (fun k hk0 hk => absurd hk (by simp; omega)) rfl,
    search_trie_path_break trieCat
      (.dict [(.str (codePoints "a"), .dict [(.str (codePoints "t"), leaf 0)])])
      (codePoints "c") 111 (codePoints "b") [] (by decide) (by rfl)
      (fun k hk0 hk => by
        have h1 : (codePoints "c").length = 1 := by decide
        rw [h1] at hk
        interval_cases k
        decide) rfl⟩

/-- Exhausted word, on the loop. -/
theorem loop_exhausted (w : List CodePoint) :
    ∀ (T N : PyObj), IsTrie T = true → walk T w = some N →
      (∀ k, 0 < k → k ≤ w.length → terminalAt T (w.take k) = false) →
      (search_loop loaded T w).result = .none := by
  induction w with
  | nil => intro T N _ _ _; simp [search_loop_nil]
  | cons d w ih =>
    intro T N hT hw hns
    obtain ⟨child, hg, hw1⟩ := walk_cons_some hw
    have hct := isTrie_child hT hg
    have h1 : holdsSentinel child = false := by
      have := hns 1 (by omega) (by simp)
      simpa [terminalAt_single hg] using this
    rw [loop_result_cons]
    simp only [hg, isTrie_check hct, h1, if_true, Bool.false_eq_true, if_false]
    exact ih child N hct hw1 (fun k hk0 hk => by
      have := hns (k + 1) (by omega) (by simpa using hk)
      simpa [List.take_succ_cons, terminalAt_cons _ hg] using this)

/-- C7 (exhausted word).  If the whole of `w` is a path in the trie `T` from
the root, and none of the nodes reached after 1, 2, ..., len(w) characters
holds the sentinel, then `search_trie(T, w)` returns absence. -/
theorem search_trie_exhausted (T N : PyObj) (w : List CodePoint) (hT : IsTrie T = true)
    (hw : walk T w = some N)
    (hns : ∀ k, 0 < k → k ≤ w.length → terminalAt T (w.take k) = false) :
    (search_trie loaded T w).result = .none := by
  rw [search_trie_of_dict _ _ _ (isTrie_check hT)]
  exact loop_exhausted w T N hT hw hns

/-- C7, example 2 of the specification: in the trie holding only "cat" the
path of "ca" exists and the search for "ca" returns absence. -/
theorem search_trie_exhausted_witness :
    (walk trieCat (codePoints "ca")).isSome = true ∧
      (search_trie loaded trieCat (codePoints "ca")).result = .none :=
  ⟨by decide,
    search_trie_exhausted trieCat
      (.dict [(.str (codePoints "t"), leaf 0)]) (codePoints "ca") (by decide) (by rfl)
      (fun k hk0 hk => by
        have h2 : (codePoints "ca").length = 2 := by decide
        rw [h2] at hk
        interval_cases k <;> decide)⟩

/-- Once the loop has returned a node, characters appended to the word change
neither the result nor the trace. -/
theorem loop_extend (w : List CodePoint) :
    ∀ (T n : PyObj) (s : List CodePoint), (search_loop loaded T w).result = .node n →
      search_loop loaded T (w ++ s) = search_loop loaded T w := by
  induction w with
  | nil => intro T n s h; simp [search_loop_nil] at h
  | cons c w ih =>
    intro T n s h
    rw [loop_result_cons] at h
    rw [List.cons_append, search_loop_cons, search_loop_cons]
    cases hg : PyDict_GetItem T [c] with
    | none => simp [hg] at h
    | some child =>
      by_cases hd : PyDict_Check child = true
      · by_cases hs : holdsSentinel child = true
        · simp [hd, hs]
        · simp only [hg, hd, hs, if_true, Bool.false_eq_true, if_false] at h
          simp only [hd, hs, if_true, Bool.false_eq_true, if_false]
          rw [ih child n s h]
      · simp [hd]

/-- C8 (trailing characters are ignored after a match).  If `search_trie(T,
w)` returns a node `n`, then `search_trie(T, w ++ s)` returns the same node
`n`, with the same trace. -/
theorem search_trie_trailing (T n : PyObj) (w s : List CodePoint)
    (h : (search_trie loaded T w).result = .node n) :
    (search_trie loaded T (w ++ s)).result = .node n ∧
      search_trie loaded T (w ++ s) = search_trie loaded T w := by
  have hd : PyDict_Check T = true := by
    by_contra hd
    rw [Bool.not_eq_true] at hd
    rw [search_trie_of_not_dict loaded T w hd] at h
    exact Result.noConfusion h
  rw [search_trie_of_dict _ _ _ hd] at h ⊢
  rw [search_trie_of_dict _ _ _ hd]
  have := loop_extend w T n s h
  exact ⟨by rw [this]; exact h, this⟩

/-- The search for "cat" in the trie holding "cat" returns the node at c, a, t. -/
theorem search_cat_in_trieCat :
    (search_trie loaded trieCat (codePoints "cat")).result = .node (leaf 0) := by
  have h := loop_shortest (codePoints "cat") trieCat (leaf 0) [] (by decide) (by rfl)
    (by decide) (fun k hk0 hk => by
      have h3 : (codePoints "cat").length = 3 := by decide
      rw [h3] at hk
      interval_cases k <;> decide)
  rw [List.append_nil] at h
  rw [search_trie_of_dict _ _ _ (by rfl)]
  exact h

/-- C8, example 1 of the specification: in the trie holding "cat" the search
for "cats" returns the node at c, a, t, as the search for "cat" does. -/
theorem search_trie_trailing_witness :
    (search_trie loaded trieCat (codePoints "cat")).result = .node (leaf 0) ∧
    (search_trie loaded trieCat (codePoints "cats")).result = .node (leaf 0) :=
  ⟨search_cat_in_trieCat,
    (search_trie_trailing trieCat (leaf 0) (codePoints "cat") (codePoints "s")
      search_cat_in_trieCat).1⟩

/-! ## C9 – C10 -/

theorem sentinel_ne_single (c : CodePoint) : PyKey.str sentinel ≠ PyKey.str [c] := by
  intro h
  have h1 : sentinel = [c] := PyKey.str.inj h
  have h2 : sentinel.length = 2 := by decide
  rw [h1] at h2
  simp at h2

theorem dictLookup_filter_sentinel (c : CodePoint) (items : List (PyKey × PyObj)) :
    dictLookup [c] (items.filter (fun e => e.1 ≠ PyKey.str sentinel)) =
      dictLookup [c] items := by
  induction items with
  | nil => rfl
  | cons e rest ih =>
    obtain ⟨k, v⟩ := e
    by_cases hk : k = PyKey.str sentinel
    · subst hk
      rw [List.filter_cons_of_neg (by simp), ih, dictLookup.eq_2,
        if_neg (sentinel_ne_single c)]
    · rw [List.filter_cons_of_pos (by simpa using hk), dictLookup.eq_2, dictLookup.eq_2, ih]

/-- The result of the loop depends on the root only through its children
under single-code-point keys. -/
theorem loop_root_congr (T T2 : PyObj)
    (h : ∀ c : CodePoint, PyDict_GetItem T [c] = PyDict_GetItem T2 [c])
    (w : List CodePoint) :
    (search_loop loaded T w).result = (search_loop loaded T2 w).result := by
  cases w with
  | nil => simp [search_loop_nil]
  | cons c w => rw [loop_result_cons, loop_result_cons, h c]

theorem dictLookup_sizeOf (k : PyStr) (items : List (PyKey × PyObj)) :
    ∀ m, dictLookup k items = some m → sizeOf m < sizeOf items := by
  induction items with
  | nil => intro m h; simp [dictLookup] at h
  | cons e rest ih =>
    intro m h
    obtain ⟨k1, v⟩ := e
    rw [dictLookup] at h
    by_cases hk : k1 = PyKey.str k
    · simp only [hk, if_true, Option.some.injEq] at h
      subst h
      simp only [List.cons.sizeOf_spec, Prod.mk.sizeOf_spec]
      omega
    · rw [if_neg hk] at h
      have := ih m h
      simp only [List.cons.sizeOf_spec]
      omega

/-- A node reached by a non-empty path is a proper part of the root. -/
theorem walk_sizeOf (p : List CodePoint) :
    ∀ (T n : PyObj), p ≠ [] → walk T p = some n → sizeOf n < sizeOf T := by
  induction p with
  | nil => intro T n hp; exact absurd rfl hp
  | cons c p ih =>
    intro T n _ hw
    obtain ⟨child, hg, hw1⟩ := walk_cons_some hw
    have h1 : sizeOf child < sizeOf T := by
      cases T with
      | dict items =>
        have := dictLookup_sizeOf [c] items child hg
        simp only [PyObj.dict.sizeOf_spec]
        omega
      | other id => simp [PyDict_GetItem] at hg
    cases p with
    | nil =>
      simp only [walk, Option.some.injEq] at hw1
      exact hw1 ▸ h1
    | cons d p => exact lt_trans (ih child n (by simp) hw1) h1

/-- C9 (the root is never checked for the sentinel).  For every word `w`:
storing the sentinel key in the root of a mapping, or removing it from the
root, leaves the result of `search_trie` unchanged, and the search never
returns its own root. -/
theorem search_trie_root_sentinel (items : List (PyKey × PyObj)) (v : PyObj)
    (w : List CodePoint) :
    (search_trie loaded (.dict ((.str sentinel, v) :: items)) w).result =
      (search_trie loaded (.dict items) w).result ∧
    (search_trie loaded (.dict (items.filter (fun e => e.1 ≠ PyKey.str sentinel))) w).result =
      (search_trie loaded (.dict items) w).result ∧
    ∀ T : PyObj, (search_trie loaded T w).result ≠ .node T := by
  refine ⟨?_, ?_, ?_⟩
  · simp only [search_trie_of_dict _ _ _ (show PyDict_Check (.dict _) = true from rfl)]
    refine loop_root_congr _ _ (fun c => ?_) w
    simp [PyDict_GetItem, dictLookup, sentinel_ne_single c]
  · simp only [search_trie_of_dict _ _ _ (show PyDict_Check (.dict _) = true from rfl)]
    refine loop_root_congr _ _ (fun c => ?_) w
    simp only [PyDict_GetItem]
    exact dictLookup_filter_sentinel c items
  · intro T h
    have hd : PyDict_Check T = true := by
      by_contra hd
      rw [Bool.not_eq_true] at hd
      rw [search_trie_of_not_dict loaded T w hd] at h
      exact Result.noConfusion h
    rw [search_trie_of_dict _ _ _ hd] at h
    obtain ⟨p, hp, _, hw, _⟩ := loop_node_sound w T T h
    exact absurd (walk_sizeOf p T T hp hw) (lt_irrefl _)

/-- C10 (key injectivity).  The lookup keys built for two different code
points exist and are different; the trie holding only "Cat" yields absence
for "cat", and the trie holding "Cat" and "cat" returns for each of the two
words the node of its own entry. -/
theorem ch_obj_injective :
    (∀ c1 c2 : CodePoint, c1 ≠ c2 →
      ∃ k1 k2, ch_obj loaded c1 = some k1 ∧ ch_obj loaded c2 = some k2 ∧ k1 ≠ k2) ∧
    (search_trie loaded trieCapCat (codePoints "cat")).result = .none ∧
    (search_trie loaded trieBothCats (codePoints "Cat")).result = .node (leaf 0) ∧
    (search_trie loaded trieBothCats (codePoints "cat")).result = .node (leaf 1) := by
  refine ⟨fun c1 c2 h => ⟨[c1], [c2], ch_obj_loaded c1, ch_obj_loaded c2, by simpa using h⟩,
    ?_, ?_, ?_⟩
  · have h := loop_path_break 99 [] trieCapCat trieCapCat (by decide) rfl
      (fun k hk0 hk => absurd hk (by simp; omega)) rfl (codePoints "at")
    rw [search_trie_of_dict _ _ _ (by rfl)]
    exact h.1
  · have h := loop_shortest (codePoints "Cat") trieBothCats (leaf 0) [] (by decide) (by rfl)
      (by decide) (fun k hk0 hk => by
        have h3 : (codePoints "Cat").length = 3 := by decide
        rw [h3] at hk
        interval_cases k <;> decide)
    rw [List.append_nil] at h
    rw [search_trie_of_dict _ _ _ (by rfl)]
    exact h
  · have h := loop_shortest (codePoints "cat") trieBothCats (leaf 1) [] (by decide) (by rfl)
      (by decide) (fun k hk0 hk => by
        have h3 : (codePoints "cat").length = 3 := by decide
        rw [h3] at hk
        interval_cases k <;> decide)
    rw [List.append_nil] at h
    rw [search_trie_of_dict _ _ _ (by rfl)]
    exact h

/-- C10 across the cache boundary (255 and 256) and for "C" and "c". -/
theorem ch_obj_injective_witness :
    (∃ k1 k2, ch_obj loaded 255 = some k1 ∧ ch_obj loaded 256 = some k2 ∧ k1 ≠ k2) ∧
    (∃ k1 k2, ch_obj loaded 67 = some k1 ∧ ch_obj loaded 99 = some k2 ∧ k1 ≠ k2) :=
  ⟨ch_obj_injective.1 255 256 (by decide), ch_obj_injective.1 67 99 (by decide)⟩

/-! ## C11 -/

/-- After initialisation the cache has its 256 slots. -/
theorem loaded_cache_length : loaded.ASCII_CACHE.length = 256 := by
  have h := (fill_spec 256 { Globals.static with
    FINAL_INDICATOR_OBJ := PyUnicode_FromString FINAL_INDICATOR }).2.1
  have hl : Globals.static.ASCII_CACHE.length = 256 := List.length_replicate 256 none
  unfold loaded PyInit_search_ext
  rw [h]
  exact hl

/-- Every key looked up by the loop is the one-code-point string of a
character of the word. -/
theorem loop_getItem_keys (w : List CodePoint) :
    ∀ (T op : PyObj) (key : PyStr),
      Event.getItem op key ∈ (search_loop loaded T w).trace → ∃ c ∈ w, key = [c] := by
  induction w with
  | nil => intro T op key h; simp [search_loop_nil] at h
  | cons c w ih =>
    intro T op key h
    rw [search_loop_cons] at h
    cases hg : PyDict_GetItem T [c] with
    | none =>
      simp only [hg, List.mem_singleton, Event.getItem.injEq] at h
      exact ⟨c, by simp, h.2⟩
    | some child =>
      by_cases hd : PyDict_Check child = true
      · by_cases hs : holdsSentinel child = true
        · simp [hg, hd, hs] at h
          exact ⟨c, by simp, h.2⟩
        · simp only [hg, hd, hs, if_true, Bool.false_eq_true, if_false, List.mem_cons,
            Event.getItem.injEq, reduceCtorEq, false_or] at h
          rcases h with h | h
          · exact ⟨c, by simp, h.2⟩
          · obtain ⟨d, hdw, hk⟩ := ih child op key h
            exact ⟨d, by simp [hdw], hk⟩
      · simp [hg, hd] at h
        exact ⟨c, by simp, h.2⟩

/-- C11 (the sentinel never collides with a traversal key).  The sentinel
object of the initialised module is the two-character string "**"; for every
code point `c` the lookup key built for `c` exists and differs from it; no
child lookup of any run uses the sentinel as its key; the lookup of the key of
`c` in a node passes over the sentinel entry of that node; and in a node whose
only entry is the sentinel no character, `*` included, finds a child. -/
theorem sentinel_never_traversal_key :
    (loaded.FINAL_INDICATOR_OBJ = some sentinel ∧ sentinel = [42, 42]) ∧
    (∀ c : CodePoint, ∃ k, ch_obj loaded c = some k ∧ k ≠ sentinel) ∧
    (∀ (T : PyObj) (w : List CodePoint) (op : PyObj) (key : PyStr),
      Event.getItem op key ∈ (search_trie loaded T w).trace → key ≠ sentinel) ∧
    (∀ (items : List (PyKey × PyObj)) (v : PyObj) (c : CodePoint) (k : PyStr),
      ch_obj loaded c = some k →
      PyDict_GetItem (.dict ((.str sentinel, v) :: items)) k =
        PyDict_GetItem (.dict items) k) ∧
    (∀ (v : PyObj) (c : CodePoint) (w : List CodePoint),
      (search_trie loaded (.dict [(.str sentinel, v)]) (c :: w)).result = .none) := by
  have hne : ∀ c : CodePoint, ([c] : PyStr) ≠ sentinel := fun c h =>
    sentinel_ne_single c (congrArg PyKey.str h.symm)
  refine ⟨⟨loaded_final, by decide⟩, fun c => ⟨[c], ch_obj_loaded c, hne c⟩, ?_, ?_, ?_⟩
  · intro T w op key h
    by_cases hd : PyDict_Check T = true
    · rw [search_trie_of_dict _ _ _ hd] at h
      obtain ⟨c, _, hk⟩ := loop_getItem_keys w T op key h
      rw [hk]
      exact hne c
    · rw [Bool.not_eq_true] at hd
      rw [search_trie_of_not_dict _ _ _ hd] at h
      simp at h
  · intro items v c k hk
    rw [ch_obj_loaded, Option.some.injEq] at hk
    subst hk
    simp [PyDict_GetItem, dictLookup, sentinel_ne_single c]
  · intro v c w
    rw [search_trie_of_dict _ _ _ (by rfl), loop_result_cons]
    have : PyDict_GetItem (.dict [(.str sentinel, v)]) [c] = none := by
      simp [PyDict_GetItem, dictLookup, sentinel_ne_single c]
    rw [this]

/-- C11 for the character `*` (code point 42): its key exists and is not the
sentinel, and the word "**" finds nothing in a node holding only the sentinel. -/
theorem sentinel_never_traversal_key_witness :
    (∃ k, ch_obj loaded 42 = some k ∧ k ≠ sentinel) ∧
    (search_trie loaded (leaf 0) (codePoints "**")).result = .none :=
  ⟨sentinel_never_traversal_key.2.1 42,
    sentinel_never_traversal_key.2.2.2.2 (.other 0) 42 [42]⟩

/-! ## C12 -/

/-- A fresh key for a code point is its one-code-point string. -/
theorem fromOrdinal_val (c : CodePoint) : PyUnicode_FromOrdinal c.val = some [c] := by
  simp [PyUnicode_FromOrdinal, c.isLt]

/-- With the initialised globals the loop and the loop without cache agree,
in result and trace. -/
theorem search_loop_eq_fresh (w : List CodePoint) :
    ∀ T : PyObj, search_loop loaded T w = search_loop_fresh loaded T w := by
  induction w with
  | nil => intro T; rw [search_loop, search_loop_fresh]
  | cons c w ih =>
    intro T
    rw [search_loop, search_loop_fresh]
    simp only [ch_obj_loaded, fromOrdinal_val, ih]

/-- C12 (the character-key cache is a faithful optimisation).  After
initialisation the cache has exactly 256 entries and entry `i` is the
one-code-point string of `i`; for a code point below 256 the key used by the
search is the cache entry at that index, which is in bounds; for a code point
from 256 on it is a freshly built one-code-point string; and for every first
argument and word `search_trie` gives the same result and trace as the search
that builds every key fresh. -/
theorem cache_faithful :
    loaded.ASCII_CACHE.length = 256 ∧
    (∀ (i : Nat) (h : i < 256), loaded.ASCII_CACHE[i]? = some (some [⟨i, by omega⟩])) ∧
    (∀ c : CodePoint, c.val < 256 →
      c.val < loaded.ASCII_CACHE.length ∧
      some (ch_obj loaded c) = loaded.ASCII_CACHE[c.val]? ∧ ch_obj loaded c = some [c]) ∧
    (∀ c : CodePoint, 256 ≤ c.val →
      ch_obj loaded c = PyUnicode_FromOrdinal c.val ∧ ch_obj loaded c = some [c]) ∧
    (∀ (T : PyObj) (w : List CodePoint),
      search_trie loaded T w = search_trie_fresh loaded T w) := by
  refine ⟨loaded_cache_length, ?_, ?_, ?_, ?_⟩
  · intro i h
    rw [loaded_cache_slot i h]
    simp [PyUnicode_FromOrdinal, show i < 1114112 by omega]
  · intro c hc
    refine ⟨by rw [loaded_cache_length]; exact hc, ?_, ch_obj_loaded c⟩
    rw [loaded_cache_slot _ hc, ch_obj_loaded, fromOrdinal_val]
  · intro c hc
    refine ⟨?_, ch_obj_loaded c⟩
    unfold ch_obj
    rw [if_neg (by omega)]
  · intro T w
    unfold search_trie search_trie_fresh
    rw [search_loop_eq_fresh]

/-- C12 at the two sides of the cache boundary, code points 255 and 256, and
for a word that crosses it, searched in the trie holding "cat". -/
theorem cache_faithful_witness :
    ((255 : CodePoint).val < loaded.ASCII_CACHE.length ∧
      some (ch_obj loaded 255) = loaded.ASCII_CACHE[(255 : CodePoint).val]? ∧
      ch_obj loaded 255 = some [255]) ∧
    (ch_obj loaded 256 = PyUnicode_FromOrdinal (256 : CodePoint).val ∧
      ch_obj loaded 256 = some [256]) ∧
    search_trie loaded trieCat [99, 1046, 255] = search_trie_fresh loaded trieCat [99, 1046, 255] :=
  ⟨cache_faithful.2.2.1 255 (by decide), cache_faithful.2.2.2.1 256 (by decide),
    cache_faithful.2.2.2.2 trieCat [99, 1046, 255]⟩

/-! ## C13 -/

theorem stopsAt_cons {n child : PyObj} {c : CodePoint} (p : List CodePoint)
    (h : PyDict_GetItem n [c] = some child) :
    stopsAt n (c :: p) = stopsAt child p := by
  simp [stopsAt, walk, h]

theorem stopsAt_single_some {n child : PyObj} {c : CodePoint}
    (h : PyDict_GetItem n [c] = some child) :
    stopsAt n [c] = holdsSentinel child := by
  simp [stopsAt, walk, h]

theorem stopsAt_single_none {n : PyObj} {c : CodePoint}
    (h : PyDict_GetItem n [c] = none) : stopsAt n [c] = true := by
  simp [stopsAt, walk, h]

/-- The loop performs at most one lookup for each character of the word. -/
theorem loop_lookups_le (w : List CodePoint) :
    ∀ T : PyObj, (search_loop loaded T w).lookups ≤ w.length := by
  induction w with
  | nil => intro T; simp [search_loop_nil, Outcome.lookups]
  | cons c w ih =>
    intro T
    rw [search_loop_cons]
    cases PyDict_GetItem T [c] with
    | none => simp [Outcome.lookups, Event.isGetItem]
    | some child =>
      by_cases hd : PyDict_Check child = true
      · by_cases hs : holdsSentinel child = true
        · simp [hd, hs, Outcome.lookups, Event.isGetItem]
        · have := ih child
          simp only [Outcome.lookups] at this
          simp [hd, hs, Outcome.lookups, Event.isGetItem, List.countP_cons]
          omega
      · simp [hd, Outcome.lookups, Event.isGetItem]

/-- On a trie the number of lookups of the loop is the first position at
which the search has to stop, the length of the word when there is none. -/
theorem loop_lookups_first_stop (w : List CodePoint) :
    ∀ T : PyObj, IsTrie T = true →
      (w ≠ [] → 0 < (search_loop loaded T w).lookups) ∧
      (∀ j, 0 < j → j < (search_loop loaded T w).lookups → stopsAt T (w.take j) = false) ∧
      ((search_loop loaded T w).lookups < w.length →
        stopsAt T (w.take (search_loop loaded T w).lookups) = true) := by
  induction w with
  | nil => intro T _; simp [search_loop_nil, Outcome.lookups]
  | cons c w ih =>
    intro T hT
    rw [search_loop_cons]
    cases hg : PyDict_GetItem T [c] with
    | none =>
      have h1 : (Outcome.mk Result.none [Event.getItem T [c]]).lookups = 1 := rfl
      simp only [h1]
      refine ⟨fun _ => by omega, fun j h0 h1 => by omega, fun _ => ?_⟩
      simpa using stopsAt_single_none hg
    | some child =>
      have hct := isTrie_child hT hg
      by_cases hs : holdsSentinel child = true
      · simp only [isTrie_check hct, hs, if_true]
        have h1 : (Outcome.mk (Result.node child)
          [Event.getItem T [c], Event.contains child sentinel]).lookups = 1 := rfl
        simp only [h1]
        refine ⟨fun _ => by omega, fun j h0 h1 => by omega, fun _ => ?_⟩
        simpa [stopsAt_single_some hg] using hs
      · simp only [isTrie_check hct, hs, if_true, Bool.false_eq_true, if_false]
        have h1 : (Outcome.mk (search_loop loaded child w).result
            (Event.getItem T [c] :: Event.contains child sentinel ::
              (search_loop loaded child w).trace)).lookups =
            (search_loop loaded child w).lookups + 1 := by
          simp [Outcome.lookups, Event.isGetItem, List.countP_cons]
        simp only [h1]
        obtain ⟨_, iha, ihb⟩ := ih child hct
        refine ⟨fun _ => by omega, fun j h0 hj => ?_, fun hlt => ?_⟩
        · cases j with
          | zero => omega
          | succ j =>
            rw [List.take_succ_cons, stopsAt_cons _ hg]
            cases j with
            | zero => simpa [stopsAt, walk] using hs
            | succ j => exact iha (j + 1) (by omega) (by omega)
        · rw [List.take_succ_cons, stopsAt_cons _ hg]
          exact ihb (by simpa using hlt)

/-- C13 (bounded termination).  The search is a total function.  For every
first argument and word the number of loop iterations (child lookups, one per
character read) is at most len(w).  For a trie `T` that number `k` is exactly
the first position at which the search has to stop: no position `j` with
`0 < j < k` has a missing edge or a sentinel-holding node, and if `k < len(w)`
then the `k`-th edge is missing or the node after `k` characters holds the
sentinel; so `k = len(w)` when neither occurs. -/
theorem search_trie_lookups (T : PyObj) (w : List CodePoint) :
    (search_trie loaded T w).lookups ≤ w.length ∧
    (IsTrie T = true →
      (w ≠ [] → 0 < (search_trie loaded T w).lookups) ∧
      (∀ j, 0 < j → j < (search_trie loaded T w).lookups → stopsAt T (w.take j) = false) ∧
      ((search_trie loaded T w).lookups < w.length →
        stopsAt T (w.take (search_trie loaded T w).lookups) = true)) := by
  constructor
  · by_cases hd : PyDict_Check T = true
    · rw [search_trie_of_dict _ _ _ hd]
      exact loop_lookups_le w T
    · rw [Bool.not_eq_true] at hd
      rw [search_trie_of_not_dict _ _ _ hd]
      simp [Outcome.lookups]
  · intro hT
    rw [search_trie_of_dict _ _ _ (isTrie_check hT)]
    exact loop_lookups_first_stop w T hT

/-- C13 on the trie holding "cat" and "catalog": the search for "catalog"
makes exactly 3 of the 7 possible iterations (first sentinel-holding node),
the search for "dog" exactly 1 (first missing edge). -/
theorem search_trie_lookups_witness :
    (search_trie loaded trieCatalog (codePoints "catalog")).lookups = 3 ∧
    (search_trie loaded trieCatalog (codePoints "dog")).lookups = 1 := by
  constructor
  · obtain ⟨hle, h⟩ := search_trie_lookups trieCatalog (codePoints "catalog")
    obtain ⟨hpos, hmin, hstop⟩ := h (by decide)
    have h7 : (codePoints "catalog").length = 7 := by decide
    rw [h7] at hle hstop
    have h0 := hpos (by decide)
    generalize (search_trie loaded trieCatalog (codePoints "catalog")).lookups = k at *
    have h3 : ¬ 3 < k := fun h3 => by
      have := hmin 3 (by omega) h3
      revert this
      decide
    have hk : k < 7 := by omega
    have hs := hstop hk
    interval_cases k
    · revert hs; decide
    · revert hs; decide
    · rfl
  · obtain ⟨hle, h⟩ := search_trie_lookups trieCatalog (codePoints "dog")
    obtain ⟨hpos, hmin, _⟩ := h (by decide)
    have h0 := hpos (by decide)
    generalize (search_trie loaded trieCatalog (codePoints "dog")).lookups = k at *
    have h1 : ¬ 1 < k := fun h1 => by
      have := hmin 1 (by omega) h1
      revert this
      decide
    omega

/-! ## C14 -/

/-- Restart, on the loop: after a path without sentinel-holding nodes the
loop continues as a loop started at the node reached. -/
theorem loop_restart (u : List CodePoint) :
    ∀ (T N : PyObj) (v : List CodePoint), IsTrie T = true → walk T u = some N →
      (∀ k, 0 < k → k ≤ u.length → terminalAt T (u.take k) = false) →
      (search_loop loaded T (u ++ v)).result = (search_loop loaded N v).result := by
  induction u with
  | nil =>
    intro T N v _ hw _
    simp only [walk, Option.some.injEq] at hw
    subst hw
    rfl
  | cons d u ih =>
    intro T N v hT hw hns
    obtain ⟨child, hg, hw1⟩ := walk_cons_some hw
    have hct := isTrie_child hT hg
    have h1 : holdsSentinel child = false := by
      have := hns 1 (by omega) (by simp)
      simpa [terminalAt_single hg] using this
    rw [List.cons_append, loop_result_cons]
    simp only [hg, isTrie_check hct, h1, if_true, Bool.false_eq_true, if_false]
    exact ih child N v hct hw1 (fun k hk0 hk => by
      have := hns (k + 1) (by omega) (by simpa using hk)
      simpa [List.take_succ_cons, terminalAt_cons _ hg] using this)

/-- C14 (restart).  For a trie `T`: if `u` is a path from the root to a node
`N` and no node reached after 1 .. len(u) characters of `u` holds the
sentinel, then `search_trie(T, u ++ v)` and `search_trie(N, v)` return the
same; and `search_trie(T, c :: v)` is absence when `T` has no child for `c`,
the child when the child holds the sentinel, and `search_trie(child, v)`
otherwise. -/
theorem search_trie_restart (T : PyObj) (hT : IsTrie T = true) :
    (∀ (N : PyObj) (u v : List CodePoint), walk T u = some N →
      (∀ k, 0 < k → k ≤ u.length → terminalAt T (u.take k) = false) →
      (search_trie loaded T (u ++ v)).result = (search_trie loaded N v).result) ∧
    (∀ (c : CodePoint) (v : List CodePoint),
      (search_trie loaded T (c :: v)).result =
        match PyDict_GetItem T [c] with
        | none => .none
        | some child =>
          if holdsSentinel child then .node child
          else (search_trie loaded child v).result) := by
  constructor
  · intro N u v hu hns
    rw [search_trie_of_dict _ _ _ (isTrie_check hT),
      search_trie_of_dict _ _ _ (isTrie_check (isTrie_walk u T N hT hu))]
    exact loop_restart u T N v hT hu hns
  · intro c v
    rw [search_trie_of_dict _ _ _ (isTrie_check hT), loop_result_cons]
    cases hg : PyDict_GetItem T [c] with
    | none => rfl
    | some child =>
      have hc := isTrie_check (isTrie_child hT hg)
      simp only [hc, if_true, search_trie_of_dict _ _ _ hc]

/-- C14 on the trie holding "cat": the search for "cats" from the root
returns what the search for "ts" from the node reached by "ca" returns, and
the search for "dog" is absence because the root has no child for "d". -/
theorem search_trie_restart_witness :
    (search_trie loaded trieCat (codePoints "cats")).result =
      (search_trie loaded (.dict [(.str (codePoints "t"), leaf 0)]) (codePoints "ts")).result ∧
    (search_trie loaded trieCat (codePoints "dog")).result = .none :=
  ⟨(search_trie_restart trieCat (by decide)).1
      (.dict [(.str (codePoints "t"), leaf 0)]) (codePoints "ca") (codePoints "ts") (by rfl)
      (fun k hk0 hk => by
        have h2 : (codePoints "ca").length = 2 := by decide
        rw [h2] at hk
        interval_cases k <;> decide),
    (search_trie_restart trieCat (by decide)).2 100 (codePoints "og")⟩

/-! ## C15 -/

/-- On a trie every dictionary primitive of the loop is applied to a mapping. -/
theorem loop_ops_are_dicts (w : List CodePoint) :
    ∀ T : PyObj, IsTrie T = true →
      ∀ e ∈ (search_loop loaded T w).trace, PyDict_Check e.op = true := by
  induction w with
  | nil => intro T _ e he; simp [search_loop_nil] at he
  | cons c w ih =>
    intro T hT e he
    have hTd := isTrie_check hT
    rw [search_loop_cons] at he
    cases hg : PyDict_GetItem T [c] with
    | none =>
      simp only [hg, List.mem_singleton] at he
      subst he
      exact hTd
    | some child =>
      have hct := isTrie_child hT hg
      have hcd := isTrie_check hct
      by_cases hs : holdsSentinel child = true
      · simp only [hg, hcd, hs, if_true, List.mem_cons, List.mem_singleton] at he
        rcases he with he | he | he
        · subst he; exact hTd
        · subst he; exact hcd
        · simp at he
      · simp only [hg, hcd, hs, if_true, Bool.false_eq_true, if_false, List.mem_cons] at he
        rcases he with he | he | he
        · subst he; exact hTd
        · subst he; exact hcd
        · exact ih child hct e he

theorem isTrie_of_children {T : PyObj} (hd : PyDict_Check T = true)
    (hc : childrenAreMappings T = true) : IsTrie T = true := by
  cases T with
  | dict items => simpa [IsTrie, childrenAreMappings] using hc
  | other id => simp [PyDict_Check] at hd

/-- C15 (only the root is type-checked).  If every value stored under a
single-code-point key anywhere in the first argument is a mapping, then every
object on which `search_trie` performs the child lookup or the sentinel test
is a mapping, and the run never leaves defined behaviour.  Without that
precondition: for the root `{"a": 5}` and the word "a" the root passes the
type check, the sentinel test is applied to the value 5, which is not a
mapping, and the behaviour of the call is undefined. -/
theorem only_root_type_checked :
    (∀ (T : PyObj) (w : List CodePoint), childrenAreMappings T = true →
      (∀ e ∈ (search_trie loaded T w).trace, PyDict_Check e.op = true) ∧
      (search_trie loaded T w).result ≠ .undefined) ∧
    (PyDict_Check dictWithIntChild = true ∧
      childrenAreMappings dictWithIntChild = false ∧
      PyDict_Check (.other 5) = false ∧
      search_trie loaded dictWithIntChild (codePoints "a") =
        ⟨.undefined, [.getItem dictWithIntChild (codePoints "a"),
          .contains (.other 5) sentinel]⟩) := by
  constructor
  · intro T w hc
    by_cases hd : PyDict_Check T = true
    · have hT := isTrie_of_children hd hc
      rw [search_trie_of_dict _ _ _ hd]
      refine ⟨loop_ops_are_dicts w T hT, fun hu => ?_⟩
      rcases loop_trie_total w T hT with h | ⟨n, h⟩ <;> rw [h] at hu <;>
        exact Result.noConfusion hu
    · rw [Bool.not_eq_true] at hd
      rw [search_trie_of_not_dict _ _ _ hd]
      exact ⟨fun e he => by simp at he, fun hu => Result.noConfusion hu⟩
  · refine ⟨rfl, by decide, rfl, ?_⟩
    rw [search_trie_of_dict _ _ _ (by rfl)]
    have h : codePoints "a" = [97] := by decide
    rw [h, search_loop_cons]
    rfl

/-- C15 on the trie holding "cat" and "catalog", whose children are all
mappings, for the word "catalog". -/
theorem only_root_type_checked_witness :
    childrenAreMappings trieCatalog = true ∧
    (∀ e ∈ (search_trie loaded trieCatalog (codePoints "catalog")).trace,
      PyDict_Check e.op = true) ∧
    (search_trie loaded trieCatalog (codePoints "catalog")).result ≠ .undefined :=
  ⟨by decide, only_root_type_checked.1 trieCatalog (codePoints "catalog") (by decide)⟩

/-! ## C4 -/

end SearchExt
